import Mathlib

/-!
Verification of the print-queue core of the HP P1102w printer diagnostic
tool (`main.cpp`).  The C++ functions relevant to the claims are embedded
shallowly: text is `List Char`, C `std::string` operations become list
operations, `std::optional` becomes `Option`, and the external command
executor becomes an explicit function argument `exec : List Char → List Char`
whose issued command lines we track as data.

Machine-integer remarks: all quantities involved (minutes, hours, days,
thresholds, token counts) are far below any 32/64-bit overflow boundary for
the inputs the program handles, so `Int`/`Nat` model `int`/`long` directly;
C++ integer division/modulus on `long` is truncation toward zero, which is
`Int.tdiv`/`Int.tmod`.
-/

/-- C `isspace` in the default "C" locale, applied to `unsigned char`:
space, tab, newline, vertical tab, form feed, carriage return. -/
def isSpaceC (c : Char) : Bool :=
  (c == ' ') || (c == '\t') || (c == '\n') || (c == '\x0b') || (c == '\x0c') || (c == '\r')

/-- C `isdigit` in the default "C" locale. -/
def isDigitC (c : Char) : Bool :=
  ('0' ≤ c) && (c ≤ '9')

/-- C `tolower` in the default "C" locale (only ASCII letters are mapped). -/
def toLowerC (c : Char) : Char :=
  if 'A' ≤ c ∧ c ≤ 'Z' then Char.ofNat (c.toNat + 32) else c

/-- Embedding of `trim_copy` (main.cpp:727): drop `isspace` characters from
the front and from the back of the string. -/
def trim_copy (s : List Char) : List Char :=
  ((s.dropWhile isSpaceC).reverse.dropWhile isSpaceC).reverse

/-- Embedding of `QueueDialog::fmt_age` (main.cpp:1147).  Time points are
modelled as integer seconds (`std::chrono::system_clock` has a finer tick,
but `duration_cast` to minutes truncates toward zero either way, which is
`Int.tdiv` on the elapsed seconds).  Returns the formatted age string and
the `out_minutes` output parameter. -/
def fmt_age : Option Int → Int → String × Int
  | none, _ => ("unknown", 0)
  | some t, now =>
    let mins0 : Int := Int.tdiv (now - t) 60
    let mins : Int := if mins0 < 0 then 0 else mins0
    if mins < 1 then ("<1m", mins)
    else if mins < 60 then (toString mins ++ "m", mins)
    else
      let hours : Int := Int.tdiv mins 60
      let rem : Int := Int.tmod mins 60
      if hours < 24 then (toString hours ++ "h " ++ toString rem ++ "m", mins)
      else (toString (Int.tdiv hours 24) ++ "d " ++ toString (Int.tmod hours 24) ++ "h", mins)

/-- The stale-highlight rule shared by `QueueDialog::apply_highlight_only`
(main.cpp:1189) and `QueueDialog::refresh` (main.cpp:1216):
`threshold > 0 && age >= threshold`. -/
def is_stale (threshold age : Int) : Bool :=
  decide (0 < threshold) && decide (threshold ≤ age)

/-- One line delivered by `std::getline` on an `istringstream`: lines are
separated by a newline; a trailing newline does not produce an extra empty
line; empty input produces no line at all.  Worker with the accumulated
current line held in reverse. -/
def splitLinesGo (acc : List Char) : List Char → List (List Char)
  | [] => [acc.reverse]
  | c :: t =>
    if c = '\n' then
      acc.reverse :: (if t.isEmpty then [] else splitLinesGo [] t)
    else splitLinesGo (c :: acc) t

/-- Splitting of command output into lines, `std::getline` semantics. -/
def splitLines (s : List Char) : List (List Char) :=
  match s with
  | [] => []
  | _ => splitLinesGo [] s

/-- One `iss >> tok` extraction on a whitespace-tokenized stream: skip
leading whitespace, take the maximal run of non-whitespace characters,
return the token together with the unconsumed remainder. -/
def takeTok (s : List Char) : List Char × List Char :=
  let s' := s.dropWhile isSpaceC
  (s'.takeWhile (fun c => !isSpaceC c), s'.dropWhile (fun c => !isSpaceC c))

/-- Fuel-driven whitespace tokenizer (the `for (std::string t; iss >> t;)`
loop).  The fuel only has to dominate the length of the string; it is
instantiated with exactly that length in `tokenize`. -/
def tokenizeF : Nat → List Char → List (List Char)
  | 0, _ => []
  | _ + 1, [] => []
  | fuel + 1, c :: cs =>
    if isSpaceC c then tokenizeF fuel cs
    else (c :: cs.takeWhile (fun x => !isSpaceC x)) :: tokenizeF fuel (cs.dropWhile (fun x => !isSpaceC x))

/-- Whitespace tokenization of a string, as performed by repeated
`operator>>` on an `istringstream`. -/
def tokenize (s : List Char) : List (List Char) :=
  tokenizeF s.length s

/-- Does `pre` occur at the very start of `s`? -/
def beginsWith : List Char → List Char → Bool
  | [], _ => true
  | _ :: _, [] => false
  | p :: ps, c :: cs => (p == c) && beginsWith ps cs

/-- Embedding of `std::string::find(needle) != npos`: does `needle` occur
as a contiguous substring of `hay`?  (An empty needle is always found.) -/
def containsSub : List Char → List Char → Bool
  | [], needle => needle.isEmpty
  | h :: t, needle => beginsWith needle (h :: t) || containsSub t needle

/-- The continuation-line test of `parse_lpstat_jobs` (main.cpp:949):
`!line.empty() && std::isspace((unsigned char)line[0])`. -/
def isContinuation (line : List Char) : Bool :=
  match line with
  | [] => false
  | c :: _ => isSpaceC c

/-- The fields of `std::tm` that `parse_datetime_from_line` fills in and
`mktime` consumes (the remaining fields of the zero-initialized `std::tm`
stay 0, and `tm_isdst` is set to -1 just before `mktime`).
`parse_datetime_from_line` is modelled as returning this broken-down local
time: the final `std::mktime` + `from_time_t` step converts it to an
absolute instant through the local time zone (injective on in-range
fields up to DST ambiguity) and is dropped from the model; its failure
case (`(time_t)-1`) cannot occur for representable dates on a 64-bit
`time_t`. -/
structure Tm where
  tm_sec : Nat
  tm_min : Nat
  tm_hour : Nat
  tm_mday : Nat
  tm_mon : Nat
  tm_year : Int
deriving DecidableEq, Repr

/-- Numeric field extraction of libstdc++ `std::get_time`: read greedily up
to `len` digits (at least one), and require the value to lie in
`[lo, hi]`.  Returns the value and the unconsumed remainder. -/
def extractNum (s : List Char) (len lo hi : Nat) : Option (Nat × List Char) :=
  let ds := (s.takeWhile isDigitC).take len
  if ds.isEmpty then none
  else
    let v := ds.foldl (fun a c => a * 10 + (c.toNat - '0'.toNat)) 0
    if lo ≤ v ∧ v ≤ hi then some (v, s.drop ds.length) else none

/-- The fixed English month abbreviations of `parse_datetime_from_line`
(main.cpp:874). -/
def monthAbbrevs : List (List Char) :=
  ["Jan", "Feb", "Mar", "Apr", "May", "Jun", "Jul", "Aug", "Sep", "Oct", "Nov", "Dec"].map String.toList

/-- Month-name extraction of `%b`: match an abbreviated month name at the
start of the input, returning its 0-based index and the remainder.  (The
inputs fed to it by `parse_datetime_from_line` are exact abbreviations, so
full-name matching never comes into play.) -/
def extractMonthGo : List (List Char) → Nat → List Char → Option (Nat × List Char)
  | [], _, _ => none
  | m :: ms, i, s =>
    if beginsWith m s then some (i, s.drop m.length) else extractMonthGo ms (i + 1) s

/-- Month-name extraction, starting at `Jan` = 0. -/
def extractMonth (s : List Char) : Option (Nat × List Char) :=
  extractMonthGo monthAbbrevs 0 s

/-- A literal character in a `std::get_time` format string must match the
next input character exactly. -/
def expectChar (c : Char) : List Char → Option (List Char)
  | [] => none
  | h :: t => if h = c then some t else none

/-- A space in a `std::get_time` format string skips any run of whitespace. -/
def skipWsL (s : List Char) : List Char :=
  s.dropWhile isSpaceC

/-- Embedding of `std::get_time` with format `"%d %b %Y %H:%M:%S"`
(`withSeconds = true`) or `"%d %b %Y %H:%M"` (`withSeconds = false`),
applied to a fresh zero-initialized `std::tm` — exactly the two calls in
`parse_datetime_from_line` (main.cpp:900, main.cpp:904).  Trailing
unconsumed input does not make the parse fail, matching stream
semantics. -/
def getTimeDMY (input : List Char) (withSeconds : Bool) : Option Tm := do
  let (d, s1) ← extractNum input 2 1 31
  let (mo, s2) ← extractMonth (skipWsL s1)
  let (y, s3) ← extractNum (skipWsL s2) 4 0 9999
  let (h, s4) ← extractNum (skipWsL s3) 2 0 23
  let s5 ← expectChar ':' s4
  let (mi, s6) ← extractNum s5 2 0 59
  if withSeconds then
    let s7 ← expectChar ':' s6
    let (sec, _) ← extractNum s7 2 0 60
    pure { tm_sec := sec, tm_min := mi, tm_hour := h, tm_mday := d, tm_mon := mo, tm_year := (y : Int) - 1900 }
  else
    pure { tm_sec := 0, tm_min := mi, tm_hour := h, tm_mday := d, tm_mon := mo, tm_year := (y : Int) - 1900 }

/-- The exact-match month test `is_month` of `parse_datetime_from_line`
(main.cpp:878). -/
def is_month (t : List Char) : Bool :=
  monthAbbrevs.contains t

/-- The AM/PM reinterpretation step of `parse_datetime_from_line`
(main.cpp:909-920): when a token exists at `i + 3` and is exactly `AM` or
`PM`, the parsed hour is reinterpreted on a 12-hour clock. -/
def applyAmPm (tokens : List (List Char)) (i : Nat) (tm : Tm) : Tm :=
  if i + 3 < tokens.length then
    let ampm := tokens.getD (i + 3) []
    if ampm = "AM".toList then
      (if tm.tm_hour = 12 then { tm with tm_hour := 0 } else tm)
    else if ampm = "PM".toList then
      (if tm.tm_hour ≠ 12 then { tm with tm_hour := tm.tm_hour + 12 } else tm)
    else tm
  else tm

/-- The input string handed to `std::get_time`:
`day + " " + mon + " " + year + " " + time` (main.cpp:899). -/
def dtInput (day mon year time : List Char) : List Char :=
  day ++ ' ' :: (mon ++ ' ' :: (year ++ ' ' :: time))

/-- The scanning loop of `parse_datetime_from_line` (main.cpp:887-927),
index `i` with fuel (one unit per iteration; the caller supplies the token
count, which the loop never exceeds).  First successful match wins. -/
def pdflGo (tokens : List (List Char)) : Nat → Nat → Option Tm
  | _, 0 => none
  | i, fuel + 1 =>
    if i < tokens.length then
      if !is_month (tokens.getD i []) then pdflGo tokens (i + 1) fuel
      else if i = 0 ∨ i + 2 ≥ tokens.length then pdflGo tokens (i + 1) fuel
      else
        let day := tokens.getD (i - 1) []
        let year := tokens.getD (i + 1) []
        let time := tokens.getD (i + 2) []
        if !containsSub time [':'] then pdflGo tokens (i + 1) fuel
        else
          match getTimeDMY (dtInput day (tokens.getD i []) year time) true with
          | some tm => some (applyAmPm tokens i tm)
          | none =>
            match getTimeDMY (dtInput day (tokens.getD i []) year time) false with
            | some tm => some (applyAmPm tokens i tm)
            | none => pdflGo tokens (i + 1) fuel
    else none

/-- Embedding of `CupsClient::parse_datetime_from_line` (main.cpp:873):
tokenize the status text and scan for the first month-anchored,
successfully parsed date/time. -/
def parse_datetime_from_line (rest : List Char) : Option Tm :=
  pdflGo (tokenize rest) 0 (tokenize rest).length

/-- Embedding of `struct PrintJob` (main.cpp:774); default values are the
default-constructed (empty) fields. -/
structure PrintJob where
  job_id : List Char := []
  user : List Char := []
  file : List Char := []
  status : List Char := []
  submitted_at : Option Tm := none
deriving DecidableEq, Repr

/-- The header-line field extraction of `parse_lpstat_jobs`
(main.cpp:954-962): `ls >> job_id >> user`, then `getline(ls, rest)` and
trim.  If the second extraction fails, the stream's failbit makes the
subsequent `getline` leave `rest` empty. -/
def parseHeaderLine (line : List Char) : PrintJob :=
  let p1 := takeTok line
  if p1.1.isEmpty then {}
  else
    let p2 := takeTok p1.2
    if p2.1.isEmpty then { job_id := p1.1 }
    else
      let rest := trim_copy p2.2
      { job_id := p1.1, user := p2.1, status := rest, submitted_at := parse_datetime_from_line rest }

/-- The local parsing state of `parse_lpstat_jobs`: accumulated jobs, the
record being built, and the `active` flag. -/
structure ParseState where
  jobs : List PrintJob
  current : PrintJob
  active : Bool
deriving DecidableEq, Repr

/-- The `flush` lambda of `parse_lpstat_jobs` (main.cpp:940): emit the
current record only if it is active and has a non-empty `job_id`, then
reset. -/
def flushState (st : ParseState) : ParseState :=
  { jobs := if st.active && !st.current.job_id.isEmpty then st.jobs ++ [st.current] else st.jobs,
    current := {}, active := false }

/-- One iteration of the line loop of `parse_lpstat_jobs`
(main.cpp:946-970). -/
def stepLine (st : ParseState) (line : List Char) : ParseState :=
  if (trim_copy line).isEmpty then flushState st
  else if !isContinuation line then
    { flushState st with current := parseHeaderLine line, active := true }
  else if st.active then
    let cont := trim_copy line
    if !cont.isEmpty then
      { st with current := { st.current with
          file := if st.current.file.isEmpty then cont else st.current.file ++ " | ".toList ++ cont } }
    else st
  else st

/-- The initial parsing state. -/
def initState : ParseState :=
  { jobs := [], current := {}, active := false }

/-- Running the line loop over a list of lines and performing the final
flush (main.cpp:972). -/
def parseLines (ls : List (List Char)) : List PrintJob :=
  (flushState (ls.foldl stepLine initState)).jobs

/-- Embedding of `CupsClient::parse_lpstat_jobs` (main.cpp:932). -/
def parse_lpstat_jobs (text : List Char) : List PrintJob :=
  parseLines (splitLines text)

/-- The fixed queue name (main.cpp:714). -/
def PRINTER_NAME : List Char :=
  "HP_LaserJet_Professional_P1102w".toList

/-- The primary (extended-filter) job-listing command of
`CupsClient::get_jobs` (main.cpp:841). -/
def cmd_jobs_primary : List Char :=
  "lpstat -W not-completed -o -l 2>&1".toList

/-- The fallback (unfiltered) job-listing command (main.cpp:844). -/
def cmd_jobs_fallback : List Char :=
  "lpstat -o -l 2>&1".toList

/-- The long printer listing command of `CupsClient::printer_long_raw`
(main.cpp:795). -/
def cmd_long_raw : List Char :=
  "lpstat -l -p \"".toList ++ PRINTER_NAME ++ "\" 2>&1".toList

/-- The cancel command issued by `CupsClient::cancel_job` (main.cpp:850). -/
def cmd_cancel (job_id : List Char) : List Char :=
  "cancel '".toList ++ job_id ++ "' 2>&1".toList

/-- The fallback trigger of `CupsClient::get_jobs` (main.cpp:842-843):
the primary output contains `"Unknown option"` or `"invalid option"`. -/
def jobsFallbackTriggered (primaryOut : List Char) : Bool :=
  containsSub primaryOut ("Unknown option".toList) || containsSub primaryOut ("invalid option".toList)

/-- The job-listing commands issued by `CupsClient::get_jobs`
(main.cpp:840-847), in order. -/
def get_jobs_cmds (exec : List Char → List Char) : List (List Char) :=
  if jobsFallbackTriggered (exec cmd_jobs_primary) then [cmd_jobs_primary, cmd_jobs_fallback]
  else [cmd_jobs_primary]

/-- The output text that `CupsClient::get_jobs` hands to the parser. -/
def get_jobs_out (exec : List Char → List Char) : List Char :=
  let out := exec cmd_jobs_primary
  if jobsFallbackTriggered out then exec cmd_jobs_fallback else out

/-- Embedding of `CupsClient::get_jobs` (main.cpp:840). -/
def get_jobs (exec : List Char → List Char) : List PrintJob :=
  parse_lpstat_jobs (get_jobs_out exec)

/-- The cancel commands issued by `CupsClient::cancel_all_from_user`
(main.cpp:857-860): one `cancel_job` per listed job whose `user` equals
the given user, in listing order. -/
def cancel_all_from_user_cmds (exec : List Char → List Char) (user : List Char) : List (List Char) :=
  (get_jobs exec).foldl (fun acc j => if j.user = user then acc ++ [cmd_cancel j.job_id] else acc) []

/-- The needle table of `CupsClient::has_recoverable_reason_hint`
(main.cpp:821-825): searched phrase paired with the reported canonical
phrase. -/
def recoverableNeedles : List (List Char × List Char) :=
  [("out of paper".toList, "out of paper".toList),
   ("media-empty".toList, "media-empty".toList),
   ("media empty".toList, "media empty".toList)]

/-- The needle loop of `has_recoverable_reason_hint` (main.cpp:827-832):
first needle found in the haystack wins. -/
def findNeedle (hay : List Char) : List (List Char × List Char) → Option (List Char)
  | [] => none
  | p :: rest => if containsSub hay p.1 then some p.2 else findNeedle hay rest

/-- Embedding of `CupsClient::has_recoverable_reason_hint` (main.cpp:816)
on the long printer listing text: lowercase the text, then search the
needle table; `some matched_reason` corresponds to a `true` return. -/
def has_recoverable_reason_hint (long_raw : List Char) : Option (List Char) :=
  findNeedle (long_raw.map toLowerC) recoverableNeedles

/-- The three advisory outcomes of the auto-recovery block of
`PrinterDiagnostic::check_cups_status` (main.cpp:1905-1914). -/
inductive RecoveryOutcome where
  | eligible : List Char → RecoveryOutcome
  | skippedJobsPresent : RecoveryOutcome
  | skippedUnrecognized : RecoveryOutcome
deriving DecidableEq, Repr

/-- The decision of the auto-recovery block (main.cpp:1905-1914), as a
function of queue emptiness and the long listing text:
`queue_empty && recoverable_hint` reports eligibility with the matched
phrase; otherwise a non-empty queue reports "jobs present", an
unrecognized reason reports "reason not recognized". -/
def auto_recovery_decision (queue_empty : Bool) (long_raw : List Char) : RecoveryOutcome :=
  let hint := has_recoverable_reason_hint long_raw
  if queue_empty && hint.isSome then .eligible (hint.getD [])
  else if !queue_empty then .skippedJobsPresent
  else .skippedUnrecognized

/-- The external commands executed by the auto-recovery block
(main.cpp:1899-1903): the job listing inside `get_jobs`, then the long
printer listing inside `has_recoverable_reason_hint`.  The branch bodies
themselves only print; no branch executes any further command. -/
def auto_recovery_block_cmds (exec : List Char → List Char) : List (List Char) :=
  get_jobs_cmds exec ++ [cmd_long_raw]

/-- The outcome computed by the auto-recovery block from the executor:
queue emptiness comes from `get_jobs`, the reason text from
`printer_long_raw`. -/
def auto_recovery_block_outcome (exec : List Char → List Char) : RecoveryOutcome :=
  auto_recovery_decision (get_jobs exec).isEmpty (exec cmd_long_raw)

theorem length_dropWhileLe (p : Char → Bool) : ∀ l : List Char, (l.dropWhile p).length ≤ l.length := by
  intro l
  induction l with
  | nil => simp
  | cons c cs ih =>
    by_cases h : p c
    · rw [List.dropWhile_cons_of_pos h]
      exact Nat.le_trans ih (Nat.le_succ _)
    · rw [List.dropWhile_cons_of_neg h]

theorem dropWhileHeadFalse (p : Char → Bool) : ∀ (l : List Char) (c : Char) (t : List Char), l.dropWhile p = c :: t → p c = false := by
  intro l
  induction l with
  | nil => intro c t h; simp at h
  | cons a as ih =>
    intro c t h
    by_cases ha : p a
    · rw [List.dropWhile_cons_of_pos ha] at h
      exact ih c t h
    · rw [List.dropWhile_cons_of_neg ha] at h
      cases h
      exact Bool.of_not_eq_true ha

theorem tokenizeF_fuel (n : Nat) : ∀ (m : Nat) (s : List Char), s.length ≤ n → s.length ≤ m → tokenizeF n s = tokenizeF m s := by
  induction n with
  | zero =>
    intro m s hn _
    have : s = [] := List.eq_nil_of_length_eq_zero (Nat.le_zero.mp hn)
    subst this
    cases m <;> rfl
  | succ n ih =>
    intro m s hn hm
    cases s with
    | nil => cases m <;> rfl
    | cons c cs =>
      cases m with
      | zero => simp at hm
      | succ m =>
        simp only [List.length_cons, Nat.succ_le_succ_iff] at hn hm
        by_cases hc : isSpaceC c
        · simp only [tokenizeF, hc, if_true]
          exact ih m cs hn hm
        · simp only [tokenizeF, hc, if_false]
          have hd : (cs.dropWhile (fun x => !isSpaceC x)).length ≤ cs.length := length_dropWhileLe _ cs
          rw [ih m (cs.dropWhile (fun x => !isSpaceC x)) (Nat.le_trans hd hn) (Nat.le_trans hd hm)]
          simp

theorem tokenize_cons (s : List Char) (h : (takeTok s).1 ≠ []) :
    tokenize s = (takeTok s).1 :: tokenize (takeTok s).2 := by
  induction s with
  | nil => simp [takeTok] at h
  | cons c cs ih =>
    by_cases hc : isSpaceC c
    · have hTok : takeTok (c :: cs) = takeTok cs := by
        simp [takeTok, List.dropWhile_cons_of_pos hc]
      rw [hTok] at h ⊢
      have : tokenize (c :: cs) = tokenize cs := by
        show tokenizeF (cs.length + 1) (c :: cs) = tokenize cs
        simp only [tokenizeF, hc, if_true]
        rfl
      rw [this]
      exact ih h
    · have hTok : takeTok (c :: cs) =
          (c :: cs.takeWhile (fun x => !isSpaceC x), cs.dropWhile (fun x => !isSpaceC x)) := by
        simp [takeTok, List.dropWhile_cons_of_neg hc, List.takeWhile_cons, hc]
      rw [hTok]
      show tokenizeF (cs.length + 1) (c :: cs) = _
      simp only [tokenizeF, hc, if_false]
      rw [tokenizeF_fuel cs.length (cs.dropWhile (fun x => !isSpaceC x)).length
        (cs.dropWhile (fun x => !isSpaceC x)) (length_dropWhileLe _ cs) (Nat.le_refl _)]
      rfl

theorem tokenize_nil_of_allspace (s : List Char) (h : s.dropWhile isSpaceC = []) : tokenize s = [] := by
  induction s with
  | nil => rfl
  | cons c cs ih =>
    by_cases hc : isSpaceC c
    · rw [List.dropWhile_cons_of_pos hc] at h
      have : tokenize (c :: cs) = tokenize cs := by
        show tokenizeF (cs.length + 1) (c :: cs) = tokenize cs
        simp only [tokenizeF, hc, if_true]
        rfl
      rw [this]
      exact ih h
    · rw [List.dropWhile_cons_of_neg hc] at h
      simp at h

theorem tokenize_nil_of_takeTok (s : List Char) (h : (takeTok s).1 = []) : tokenize s = [] := by
  rcases hd : s.dropWhile isSpaceC with _ | ⟨c, t⟩
  · exact tokenize_nil_of_allspace s hd
  · exfalso
    have hc : isSpaceC c = false := dropWhileHeadFalse isSpaceC s c t hd
    have : (takeTok s).1 = c :: t.takeWhile (fun x => !isSpaceC x) := by
      simp [takeTok, hd, List.takeWhile_cons, hc]
    rw [this] at h
    simp at h

theorem fmt_age_some_cases (t now : Int) :
    ∃ m : Int, 0 ≤ m ∧ fmt_age (some t) now =
      (if m < 1 then ("<1m", m)
       else if m < 60 then (toString m ++ "m", m)
       else if Int.tdiv m 60 < 24 then (toString (Int.tdiv m 60) ++ "h " ++ toString (Int.tmod m 60) ++ "m", m)
       else (toString (Int.tdiv (Int.tdiv m 60) 24) ++ "d " ++ toString (Int.tmod (Int.tdiv m 60) 24) ++ "h", m)) := by
  refine ⟨if Int.tdiv (now - t) 60 < 0 then 0 else Int.tdiv (now - t) 60, ?_, rfl⟩
  split_ifs with h
  · exact Int.le_refl 0
  · omega

theorem flushState_inv (st : ParseState) (h : ∀ j ∈ st.jobs, j.job_id ≠ []) :
    ∀ j ∈ (flushState st).jobs, j.job_id ≠ [] := by
  intro j hj
  unfold flushState at hj
  by_cases hc : st.active && !st.current.job_id.isEmpty
  · simp only [hc, if_true] at hj
    rcases List.mem_append.mp hj with h1 | h2
    · exact h j h1
    · have : j = st.current := by simpa using h2
      subst this
      have := (Bool.and_eq_true _ _).mp hc
      simpa using this.2
  · simp only [hc, if_false] at hj
    exact h j hj

theorem stepLine_inv (st : ParseState) (line : List Char) (h : ∀ j ∈ st.jobs, j.job_id ≠ []) :
    ∀ j ∈ (stepLine st line).jobs, j.job_id ≠ [] := by
  intro j hj
  unfold stepLine at hj
  split_ifs at hj <;>
    first
      | exact flushState_inv st h j hj
      | exact flushState_inv st h j (by simpa using hj)
      | exact h j hj
      | exact h j (by simpa using hj)
      | (dsimp only at hj
         split_ifs at hj <;> exact h j hj)

theorem foldl_stepLine_inv (ls : List (List Char)) : ∀ st : ParseState, (∀ j ∈ st.jobs, j.job_id ≠ []) →
    ∀ j ∈ (ls.foldl stepLine st).jobs, j.job_id ≠ [] := by
  induction ls with
  | nil => intro st h; exact h
  | cons l rest ih =>
    intro st h
    exact ih (stepLine st l) (stepLine_inv st l h)

theorem stepLine_initState_noop (l : List Char) (h : trim_copy l = [] ∨ isContinuation l = true) :
    stepLine initState l = initState := by
  by_cases hb : (trim_copy l).isEmpty
  · simp only [stepLine, hb, if_true]
    decide
  · rcases h with h | h
    · rw [h] at hb; simp at hb
    · simp only [stepLine, hb, if_false, h, Bool.not_true, Bool.false_eq_true, if_false]
      show (if initState.active = true then _ else initState) = initState
      simp [initState]

theorem foldl_pre_noop (pre : List (List Char)) (h : ∀ l ∈ pre, trim_copy l = [] ∨ isContinuation l = true) :
    pre.foldl stepLine initState = initState := by
  induction pre with
  | nil => rfl
  | cons l rest ih =>
    simp only [List.foldl_cons]
    rw [stepLine_initState_noop l (h l (List.mem_cons_self _ _))]
    exact ih (fun x hx => h x (List.mem_cons_of_mem _ hx))

theorem cancel_foldl (user : List Char) : ∀ (js : List PrintJob) (acc : List (List Char)),
    js.foldl (fun acc j => if j.user = user then acc ++ [cmd_cancel j.job_id] else acc) acc
      = acc ++ (js.filter (fun j => decide (j.user = user))).map (fun j => cmd_cancel j.job_id) := by
  intro js
  induction js with
  | nil => intro acc; simp
  | cons j t ih =>
    intro acc
    by_cases h : j.user = user
    · simp [h, ih, List.append_assoc]
    · simp [h, ih]

theorem fmt_age_eq_body (t now m : Int)
    (hm : m = if Int.tdiv (now - t) 60 < 0 then 0 else Int.tdiv (now - t) 60) :
    fmt_age (some t) now =
      (if m < 1 then ("<1m", m)
       else if m < 60 then (toString m ++ "m", m)
       else if Int.tdiv m 60 < 24 then (toString (Int.tdiv m 60) ++ "h " ++ toString (Int.tmod m 60) ++ "m", m)
       else (toString (Int.tdiv (Int.tdiv m 60) 24) ++ "d " ++ toString (Int.tmod (Int.tdiv m 60) 24) ++ "h", m)) := by
  subst hm; rfl

/-- Claim C1, counterexample.  The claim quantifies over every status text
containing the token sequence 5 Jan 2024 10:00:00, but the extractor's
scan is first-match-wins: a status text that also contains an earlier
parseable datetime resolves to that earlier instant, not to 5 Jan 2024
10:00:00.  Concretely, the text below contains the quoted token sequence
yet parses to 2 Feb 2023 08:00:00. -/
theorem claim_C1_counterexample :
    List.IsInfix ["5".toList, "Jan".toList, "2024".toList, "10:00:00".toList]
        (tokenize ("2 Feb 2023 08:00:00 5 Jan 2024 10:00:00".toList))
    ∧ parse_datetime_from_line ("2 Feb 2023 08:00:00 5 Jan 2024 10:00:00".toList)
        = some ⟨0, 0, 8, 2, 1, 123⟩
    ∧ (⟨0, 0, 8, 2, 1, 123⟩ : Tm) ≠ ⟨0, 0, 10, 5, 0, 124⟩ := by
  refine ⟨by decide, by decide, by decide⟩

/-- Claim C1, amended.  For the status text 5 Jan 2024 10:00:00 the
extractor returns that local instant (hour 10); for 5 Jan 2024 10:00
(no seconds) parsing still succeeds via the seconds-optional fallback,
with seconds 0; and when the token after the time token is exactly AM or
PM the parsed hour is reinterpreted on a 12-hour clock (AM: hour 12
becomes 0; PM: hour other than 12 gets 12 added), so 5 Jan 2024 10:00:00
PM yields hour 22, 5 Jan 2024 12:30:00 AM yields hour 0, and 5 Jan 2024
12:05:00 PM keeps hour 12.  (Unlike the original claim, a status text
merely containing the token sequence may resolve to an earlier successful
match of the scan.) -/
theorem claim_C1_timestamps :
    parse_datetime_from_line ("5 Jan 2024 10:00:00".toList) = some ⟨0, 0, 10, 5, 0, 124⟩
    ∧ parse_datetime_from_line ("5 Jan 2024 10:00".toList) = some ⟨0, 0, 10, 5, 0, 124⟩
    ∧ parse_datetime_from_line ("5 Jan 2024 10:00:00 PM".toList) = some ⟨0, 0, 22, 5, 0, 124⟩
    ∧ parse_datetime_from_line ("5 Jan 2024 12:30:00 AM".toList) = some ⟨0, 30, 0, 5, 0, 124⟩
    ∧ parse_datetime_from_line ("5 Jan 2024 12:05:00 PM".toList) = some ⟨0, 5, 12, 5, 0, 124⟩ := by
  refine ⟨by decide, by decide, by decide, by decide, by decide⟩

/-- Claim C3.  A whitespace-only line always flushes the record being
built (emitted exactly when the state is active with a non-empty job id)
and resets the parsing state; and the two-record example splits at the
blank line into two independent records. -/
theorem claim_C3_blank_line_flushes (st : ParseState) (line : List Char)
    (h : trim_copy line = []) :
    stepLine st line =
      { jobs := st.jobs ++ (if st.active && !st.current.job_id.isEmpty then [st.current] else []),
        current := {}, active := false }
    ∧ (parse_lpstat_jobs ("J1 alice 5 Jan 2024 10:00:00\n\nJ2 bob ...\n".toList)).map
        (fun j => (j.job_id, j.user))
      = [("J1".toList, "alice".toList), ("J2".toList, "bob".toList)] := by
  constructor
  · have hb : (trim_copy line).isEmpty = true := by rw [h]; rfl
    rw [stepLine, if_pos hb]
    unfold flushState
    cases hc : st.current.job_id.isEmpty <;> cases ha : st.active <;> simp [hc, ha]
  · decide

/-- Witness for claim C3 at a concrete state and a concrete whitespace-only
line. -/
theorem claim_C3_witness :
    stepLine { jobs := [], current := { job_id := ("J9".toList) }, active := true } (" ".toList)
      = { jobs := [{ job_id := ("J9".toList) }], current := {}, active := false } :=
  ((claim_C3_blank_line_flushes
      { jobs := [], current := { job_id := ("J9".toList) }, active := true }
      (" ".toList) (by decide)).1).trans (by decide)

/-- Claim C5.  The age formatter returns "unknown" with minutes 0 for an
absent timestamp; the minutes value is never negative; and the formatted
string is "<1m" below one minute, "Nm" for 1 to 59 minutes, hours and
remainder minutes for 1 to 23 hours, days and remainder hours from 24
hours on; with the boundary instances 0 minutes, exactly 60 minutes and
exactly 1440 minutes. -/
theorem claim_C5_age_format (t now : Int) :
    fmt_age none now = ("unknown", 0)
    ∧ 0 ≤ (fmt_age (some t) now).2
    ∧ ((fmt_age (some t) now).2 < 1 → (fmt_age (some t) now).1 = "<1m")
    ∧ (1 ≤ (fmt_age (some t) now).2 ∧ (fmt_age (some t) now).2 ≤ 59 →
        (fmt_age (some t) now).1 = toString (fmt_age (some t) now).2 ++ "m")
    ∧ (60 ≤ (fmt_age (some t) now).2 ∧ (fmt_age (some t) now).2 ≤ 1439 →
        (fmt_age (some t) now).1
          = toString (Int.tdiv (fmt_age (some t) now).2 60) ++ "h "
            ++ toString (Int.tmod (fmt_age (some t) now).2 60) ++ "m")
    ∧ (1440 ≤ (fmt_age (some t) now).2 →
        (fmt_age (some t) now).1
          = toString (Int.tdiv (Int.tdiv (fmt_age (some t) now).2 60) 24) ++ "d "
            ++ toString (Int.tmod (Int.tdiv (fmt_age (some t) now).2 60) 24) ++ "h")
    ∧ fmt_age (some 0) 0 = ("<1m", 0)
    ∧ fmt_age (some 0) 3600 = ("1h 0m", 60)
    ∧ fmt_age (some 0) 86400 = ("1d 0h", 1440) := by
  obtain ⟨m, hm, heq⟩ := fmt_age_some_cases t now
  rw [heq]
  have htd : Int.tdiv m 60 = m / 60 := Int.tdiv_eq_ediv hm (by norm_num)
  split_ifs with h1 h2 h3 <;> dsimp only <;>
    refine ⟨rfl, hm, fun hx => ?_, fun hx => ?_, fun hx => ?_, fun hx => ?_,
      by decide, by decide, by decide⟩ <;>
      first
        | rfl
        | (exfalso
           rw [htd] at *
           omega)

/-- Witness for claim C5 at a five-minute age. -/
theorem claim_C5_witness :
    (fmt_age (some 0) 300).1 = toString (fmt_age (some 0) 300).2 ++ "m" :=
  (claim_C5_age_format 0 300).2.2.2.1 (by decide)

/-- Claim C6.  A job is flagged stale iff the threshold is positive and
the age reaches it; threshold 0 never flags; threshold 10 flags age 10
but not age 9. -/
theorem claim_C6_stale_rule (threshold age : Int) :
    (is_stale threshold age = true ↔ 0 < threshold ∧ threshold ≤ age)
    ∧ is_stale 0 age = false
    ∧ is_stale 10 10 = true
    ∧ is_stale 10 9 = false := by
  refine ⟨?_, ?_, by decide, by decide⟩
  · simp [is_stale]
  · simp [is_stale]

/-- Claim C10.  A future submission timestamp (negative elapsed duration)
is clamped: the age is reported as 0 minutes with the string "<1m", never
"unknown" and never negative. -/
theorem claim_C10_future_clamped (t now : Int) (h : now < t) :
    fmt_age (some t) now = ("<1m", 0) := by
  have h0 : Int.tdiv (now - t) 60 ≤ 0 := by
    have h2 : 0 ≤ t - now := by omega
    have h3 : Int.tdiv (now - t) 60 = -(Int.tdiv (t - now) 60) := by
      have h4 : now - t = -(t - now) := by ring
      rw [h4, Int.neg_tdiv]
    have h5 : 0 ≤ Int.tdiv (t - now) 60 := Int.tdiv_nonneg h2 (by norm_num)
    omega
  rw [fmt_age_eq_body t now (if Int.tdiv (now - t) 60 < 0 then 0 else Int.tdiv (now - t) 60) rfl]
  have hm0 : (if Int.tdiv (now - t) 60 < 0 then (0 : Int) else Int.tdiv (now - t) 60) = 0 := by
    split_ifs with hs
    · rfl
    · omega
  rw [hm0]
  norm_num

/-- Witness for claim C10 at a timestamp ten seconds in the future. -/
theorem claim_C10_witness : fmt_age (some 10) 0 = ("<1m", 0) :=
  claim_C10_future_clamped 10 0 (by norm_num)

/-- Claim C4.  Every job record produced by the parser has a non-empty
job id (a record is only emitted through the flush of an opened header
record); a prefix of blank or continuation lines before the first header
line is dropped without effect; and continuation-only input yields no
records at all.  The parser is a total function, so malformed fragments
are dropped without any error being raised. -/
theorem claim_C4_record_invariants (text : List Char) (pre rest : List (List Char))
    (hpre : ∀ l ∈ pre, trim_copy l = [] ∨ isContinuation l = true) :
    (∀ j ∈ parse_lpstat_jobs text, j.job_id ≠ [])
    ∧ parseLines (pre ++ rest) = parseLines rest
    ∧ parseLines pre = [] := by
  have hdrop : pre.foldl stepLine initState = initState := foldl_pre_noop pre hpre
  refine ⟨?_, ?_, ?_⟩
  · intro j hj
    have hinit : ∀ j ∈ initState.jobs, j.job_id ≠ [] := by
      intro j hj
      simp [initState] at hj
    exact flushState_inv _ (foldl_stepLine_inv (splitLines text) initState hinit) j hj
  · unfold parseLines
    rw [List.foldl_append, hdrop]
  · unfold parseLines
    rw [hdrop]
    decide

/-- Witness for claim C4 on a concrete text, a concrete
continuation-line prefix and a concrete remainder. -/
theorem claim_C4_witness :
    (∀ j ∈ parse_lpstat_jobs ("J1 alice x\n".toList), j.job_id ≠ [])
    ∧ parseLines ([" frag".toList] ++ ["J1 alice x".toList]) = parseLines (["J1 alice x".toList])
    ∧ parseLines ([" frag".toList]) = [] :=
  claim_C4_record_invariants ("J1 alice x\n".toList) [" frag".toList] ["J1 alice x".toList]
    (by decide)

/-- Claim C7.  The auto-recovery decision is eligible exactly when the
queue is empty and the lowercased reason text contains a recoverable
phrase, reporting the lowercase canonical phrase; a non-empty queue gives
the distinct jobs-present outcome regardless of the text; an empty queue
with no recognized phrase gives the reason-unrecognized outcome; text
containing Media Empty in any case with an empty queue is eligible with
canonical phrase media empty; and the advisory block only ever runs the
job-listing and long-listing commands, never a cupsenable or cupsaccept
fix. -/
theorem claim_C7_auto_recovery (queue_empty : Bool) (long_raw m : List Char)
    (exec : List Char → List Char) :
    (auto_recovery_decision queue_empty long_raw = .eligible m
      ↔ (queue_empty = true ∧ has_recoverable_reason_hint long_raw = some m))
    ∧ (auto_recovery_decision queue_empty long_raw = .skippedJobsPresent ↔ queue_empty = false)
    ∧ (auto_recovery_decision queue_empty long_raw = .skippedUnrecognized
      ↔ (queue_empty = true ∧ has_recoverable_reason_hint long_raw = none))
    ∧ auto_recovery_decision true ("Status: Media Empty in tray 1".toList)
        = .eligible ("media empty".toList)
    ∧ (∀ c ∈ auto_recovery_block_cmds exec,
        containsSub c ("cupsenable".toList) = false ∧ containsSub c ("cupsaccept".toList) = false) := by
  refine ⟨?_, ?_, ?_, by decide, ?_⟩
  · cases h : has_recoverable_reason_hint long_raw <;> cases queue_empty <;>
      simp [auto_recovery_decision, h]
  · cases h : has_recoverable_reason_hint long_raw <;> cases queue_empty <;>
      simp [auto_recovery_decision, h]
  · cases h : has_recoverable_reason_hint long_raw <;> cases queue_empty <;>
      simp [auto_recovery_decision, h]
  · intro c hc
    unfold auto_recovery_block_cmds get_jobs_cmds at hc
    by_cases ht : jobsFallbackTriggered (exec cmd_jobs_primary)
    · rw [if_pos ht] at hc
      have hd : c = cmd_jobs_primary ∨ c = cmd_jobs_fallback ∨ c = cmd_long_raw := by
        simpa using hc
      rcases hd with h1 | h1 | h1 <;> subst h1 <;> decide
    · rw [if_neg ht] at hc
      have hd : c = cmd_jobs_primary ∨ c = cmd_long_raw := by
        simpa using hc
      rcases hd with h1 | h1 <;> subst h1 <;> decide

/-- Witness for claim C7 at an empty queue, a Media Empty reason text and
a trivial executor. -/
theorem claim_C7_witness :
    (auto_recovery_decision true ("Status: Media Empty in tray 1".toList)
        = .eligible ("media empty".toList)
      ↔ (true = true ∧ has_recoverable_reason_hint ("Status: Media Empty in tray 1".toList)
          = some ("media empty".toList)))
    ∧ (auto_recovery_decision true ("Status: Media Empty in tray 1".toList) = .skippedJobsPresent
      ↔ true = false)
    ∧ (auto_recovery_decision true ("Status: Media Empty in tray 1".toList) = .skippedUnrecognized
      ↔ (true = true ∧ has_recoverable_reason_hint ("Status: Media Empty in tray 1".toList) = none))
    ∧ auto_recovery_decision true ("Status: Media Empty in tray 1".toList)
        = .eligible ("media empty".toList)
    ∧ (∀ c ∈ auto_recovery_block_cmds (fun _ => []),
        containsSub c ("cupsenable".toList) = false ∧ containsSub c ("cupsaccept".toList) = false) :=
  claim_C7_auto_recovery true ("Status: Media Empty in tray 1".toList) ("media empty".toList)
    (fun _ => [])

/-- Claim C8, counterexample.  The claim states that the fallback fires on
the case-sensitive substrings "unknown option" or "invalid option"; the
code actually tests "Unknown option" (capital U) and "invalid option".  A
primary output containing lowercase "unknown option" does not trigger the
secondary command: the issued command list stays at the primary command
alone and the primary output is what gets parsed. -/
theorem claim_C8_counterexample :
    containsSub ("lpstat: unknown option -- W".toList) ("unknown option".toList) = true
    ∧ get_jobs_cmds (fun _ => "lpstat: unknown option -- W".toList) = [cmd_jobs_primary]
    ∧ get_jobs_out (fun _ => "lpstat: unknown option -- W".toList)
        = "lpstat: unknown option -- W".toList := by
  refine ⟨by decide, by decide, by decide⟩

/-- Claim C8, amended.  The secondary unfiltered listing command is issued
and its output parsed if and only if the primary output contains the
case-sensitive substring "Unknown option" (capital U) or "invalid
option"; otherwise only the primary command is issued and its output is
parsed. -/
theorem claim_C8_fallback (exec : List Char → List Char) :
    ((get_jobs_cmds exec = [cmd_jobs_primary, cmd_jobs_fallback]
        ∧ get_jobs_out exec = exec cmd_jobs_fallback
        ∧ get_jobs exec = parse_lpstat_jobs (exec cmd_jobs_fallback))
      ↔ (containsSub (exec cmd_jobs_primary) ("Unknown option".toList) = true
         ∨ containsSub (exec cmd_jobs_primary) ("invalid option".toList) = true))
    ∧ ((get_jobs_cmds exec = [cmd_jobs_primary]
        ∧ get_jobs_out exec = exec cmd_jobs_primary
        ∧ get_jobs exec = parse_lpstat_jobs (exec cmd_jobs_primary))
      ↔ ¬(containsSub (exec cmd_jobs_primary) ("Unknown option".toList) = true
         ∨ containsSub (exec cmd_jobs_primary) ("invalid option".toList) = true)) := by
  have hiff : (containsSub (exec cmd_jobs_primary) ("Unknown option".toList) = true
      ∨ containsSub (exec cmd_jobs_primary) ("invalid option".toList) = true)
      ↔ jobsFallbackTriggered (exec cmd_jobs_primary) = true := by
    simp [jobsFallbackTriggered]
  rw [hiff]
  cases ht : jobsFallbackTriggered (exec cmd_jobs_primary) <;>
    simp [get_jobs_cmds, get_jobs_out, get_jobs, ht]

/-- Witness for claim C8 at a trivial executor (empty outputs, so the
fallback does not fire). -/
theorem claim_C8_witness :
    ((get_jobs_cmds (fun _ => []) = [cmd_jobs_primary, cmd_jobs_fallback]
        ∧ get_jobs_out (fun _ => []) = (fun _ => ([] : List Char)) cmd_jobs_fallback
        ∧ get_jobs (fun _ => []) = parse_lpstat_jobs ((fun _ => ([] : List Char)) cmd_jobs_fallback))
      ↔ (containsSub ((fun _ => ([] : List Char)) cmd_jobs_primary) ("Unknown option".toList) = true
         ∨ containsSub ((fun _ => ([] : List Char)) cmd_jobs_primary) ("invalid option".toList) = true))
    ∧ ((get_jobs_cmds (fun _ => []) = [cmd_jobs_primary]
        ∧ get_jobs_out (fun _ => []) = (fun _ => ([] : List Char)) cmd_jobs_primary
        ∧ get_jobs (fun _ => []) = parse_lpstat_jobs ((fun _ => ([] : List Char)) cmd_jobs_primary))
      ↔ ¬(containsSub ((fun _ => ([] : List Char)) cmd_jobs_primary) ("Unknown option".toList) = true
         ∨ containsSub ((fun _ => ([] : List Char)) cmd_jobs_primary) ("invalid option".toList) = true)) :=
  claim_C8_fallback (fun _ => [])

/-- Claim C9.  cancel_all_from_user issues exactly one cancel command per
listed job whose owner equals the given user — the issued command list is
precisely the cancel command mapped over the matching jobs, in listing
order — and hence zero commands when no owner matches. -/
theorem claim_C9_cancel_by_owner (exec : List Char → List Char) (user : List Char) :
    cancel_all_from_user_cmds exec user
      = ((get_jobs exec).filter (fun j => decide (j.user = user))).map (fun j => cmd_cancel j.job_id)
    ∧ (cancel_all_from_user_cmds exec user).length
      = ((get_jobs exec).filter (fun j => decide (j.user = user))).length := by
  have h := cancel_foldl user (get_jobs exec) []
  constructor
  · simpa [cancel_all_from_user_cmds] using h
  · have h2 : cancel_all_from_user_cmds exec user
        = ((get_jobs exec).filter (fun j => decide (j.user = user))).map (fun j => cmd_cancel j.job_id) := by
      simpa [cancel_all_from_user_cmds] using h
    rw [h2, List.length_map]

theorem isEmptyFalse (l : List Char) (h : l ≠ []) : l.isEmpty = false := by
  cases l with
  | nil => exact absurd rfl h
  | cons a t => rfl

theorem parseHeaderLine_eq (line : List Char)
    (h1 : (takeTok line).1 ≠ []) (h2 : (takeTok (takeTok line).2).1 ≠ []) :
    parseHeaderLine line =
      { job_id := (takeTok line).1, user := (takeTok (takeTok line).2).1,
        status := trim_copy (takeTok (takeTok line).2).2,
        submitted_at := parse_datetime_from_line (trim_copy (takeTok (takeTok line).2).2) } := by
  unfold parseHeaderLine
  simp only [isEmptyFalse _ h1, isEmptyFalse _ h2, Bool.false_eq_true, if_false]

/-- Claim C2.  For every non-blank header line (first character not
whitespace) with at least two whitespace-separated tokens, the parser sets
job_id to the first token and user (the owner) to the second token
exactly, regardless of trailing content; and the line decomposes as the
two tokens, a non-empty whitespace separator and a remainder whose
trimmed value is retained as the status text. -/
theorem claim_C2_header_fields (line : List Char)
    (hhead : isContinuation line = false)
    (htoks : 2 ≤ (tokenize line).length) :
    (parseHeaderLine line).job_id = (tokenize line).getD 0 []
    ∧ (parseHeaderLine line).user = (tokenize line).getD 1 []
    ∧ ∃ sep rest : List Char,
        sep ≠ [] ∧ (∀ c ∈ sep, isSpaceC c = true)
        ∧ line = (tokenize line).getD 0 [] ++ sep ++ (tokenize line).getD 1 [] ++ rest
        ∧ (parseHeaderLine line).status = trim_copy rest := by
  cases line with
  | nil => simp [tokenize, tokenizeF] at htoks
  | cons c cs =>
    have hc : isSpaceC c = false := by simpa [isContinuation] using hhead
    have hcp : (fun x => !isSpaceC x) c = true := by simp [hc]
    have hdrop : (c :: cs).dropWhile isSpaceC = c :: cs :=
      List.dropWhile_cons_of_neg (by simp [hc])
    have htt : takeTok (c :: cs) =
        ((c :: cs).takeWhile (fun x => !isSpaceC x), (c :: cs).dropWhile (fun x => !isSpaceC x)) := by
      simp only [takeTok, hdrop]
    have ht1ne : (c :: cs).takeWhile (fun x => !isSpaceC x) ≠ [] := by
      simp [List.takeWhile_cons, hc]
    have htok1 : tokenize (c :: cs)
        = (c :: cs).takeWhile (fun x => !isSpaceC x)
          :: tokenize ((c :: cs).dropWhile (fun x => !isSpaceC x)) := by
      have h := tokenize_cons (c :: cs) (by rw [htt]; exact ht1ne)
      rw [htt] at h
      exact h
    have hlen : 1 ≤ (tokenize ((c :: cs).dropWhile (fun x => !isSpaceC x))).length := by
      rw [htok1] at htoks
      simpa using htoks
    have htr1ne : tokenize ((c :: cs).dropWhile (fun x => !isSpaceC x)) ≠ [] := by
      intro h
      rw [h] at hlen
      simp at hlen
    have ht2ne : (takeTok ((c :: cs).dropWhile (fun x => !isSpaceC x))).1 ≠ [] := by
      intro h
      exact htr1ne (tokenize_nil_of_takeTok _ h)
    have htok2 : tokenize ((c :: cs).dropWhile (fun x => !isSpaceC x))
        = (takeTok ((c :: cs).dropWhile (fun x => !isSpaceC x))).1
          :: tokenize (takeTok ((c :: cs).dropWhile (fun x => !isSpaceC x))).2 :=
      tokenize_cons _ ht2ne
    have hg0 : (tokenize (c :: cs)).getD 0 [] = (c :: cs).takeWhile (fun x => !isSpaceC x) := by
      rw [htok1]
      rfl
    have hg1 : (tokenize (c :: cs)).getD 1 []
        = (takeTok ((c :: cs).dropWhile (fun x => !isSpaceC x))).1 := by
      rw [htok1, htok2]
      rfl
    have hph := parseHeaderLine_eq (c :: cs) (by rw [htt]; exact ht1ne) (by rw [htt]; exact ht2ne)
    rw [htt] at hph
    refine ⟨?_, ?_, ?_⟩
    · rw [hph, hg0]
    · rw [hph, hg1]
    · -- the whitespace separator and the remainder
      have hr1ne : (c :: cs).dropWhile (fun x => !isSpaceC x) ≠ [] := by
        intro h
        apply ht2ne
        rw [h]
        rfl
      rcases hd : (c :: cs).dropWhile (fun x => !isSpaceC x) with _ | ⟨d, dt⟩
      · exact absurd hd hr1ne
      · have hds : isSpaceC d = true := by
          have := dropWhileHeadFalse (fun x => !isSpaceC x) (c :: cs) d dt hd
          simpa using this
        refine ⟨(d :: dt).takeWhile isSpaceC,
          (takeTok ((c :: cs).dropWhile (fun x => !isSpaceC x))).2, ?_, ?_, ?_, ?_⟩
        · rw [List.takeWhile_cons_of_pos hds]
          simp
        · intro x hx
          exact List.mem_takeWhile_imp hx
        · rw [hg0, hg1]
          have e1 : (c :: cs) = (c :: cs).takeWhile (fun x => !isSpaceC x)
              ++ (c :: cs).dropWhile (fun x => !isSpaceC x) :=
            (List.takeWhile_append_dropWhile _ _).symm
          have e2 : (c :: cs).dropWhile (fun x => !isSpaceC x)
              = (d :: dt).takeWhile isSpaceC ++ (d :: dt).dropWhile isSpaceC := by
            rw [hd]
            exact (List.takeWhile_append_dropWhile _ _).symm
          have e3 : (d :: dt).dropWhile isSpaceC
              = (takeTok ((c :: cs).dropWhile (fun x => !isSpaceC x))).1
                ++ (takeTok ((c :: cs).dropWhile (fun x => !isSpaceC x))).2 := by
            have : takeTok ((c :: cs).dropWhile (fun x => !isSpaceC x))
                = (((d :: dt).dropWhile isSpaceC).takeWhile (fun x => !isSpaceC x),
                   ((d :: dt).dropWhile isSpaceC).dropWhile (fun x => !isSpaceC x)) := by
              simp only [takeTok, hd]
            rw [this]
            exact (List.takeWhile_append_dropWhile _ _).symm
          calc (c : Char) :: cs
              = (c :: cs).takeWhile (fun x => !isSpaceC x)
                ++ (c :: cs).dropWhile (fun x => !isSpaceC x) := e1
            _ = (c :: cs).takeWhile (fun x => !isSpaceC x)
                ++ ((d :: dt).takeWhile isSpaceC ++ (d :: dt).dropWhile isSpaceC) := by rw [e2]
            _ = (c :: cs).takeWhile (fun x => !isSpaceC x)
                ++ ((d :: dt).takeWhile isSpaceC
                  ++ ((takeTok ((c :: cs).dropWhile (fun x => !isSpaceC x))).1
                    ++ (takeTok ((c :: cs).dropWhile (fun x => !isSpaceC x))).2)) := by rw [e3]
            _ = _ := by simp [List.append_assoc]
        · rw [hph]

/-- Witness for claim C2 at a concrete header line with trailing content. -/
theorem claim_C2_witness :
    (parseHeaderLine ("J7 carol queued since 5 Jan 2024".toList)).job_id
        = (tokenize ("J7 carol queued since 5 Jan 2024".toList)).getD 0 []
    ∧ (parseHeaderLine ("J7 carol queued since 5 Jan 2024".toList)).user
        = (tokenize ("J7 carol queued since 5 Jan 2024".toList)).getD 1 []
    ∧ ∃ sep rest : List Char,
        sep ≠ [] ∧ (∀ c ∈ sep, isSpaceC c = true)
        ∧ "J7 carol queued since 5 Jan 2024".toList
          = (tokenize ("J7 carol queued since 5 Jan 2024".toList)).getD 0 [] ++ sep
            ++ (tokenize ("J7 carol queued since 5 Jan 2024".toList)).getD 1 [] ++ rest
        ∧ (parseHeaderLine ("J7 carol queued since 5 Jan 2024".toList)).status = trim_copy rest :=
  claim_C2_header_fields ("J7 carol queued since 5 Jan 2024".toList) (by decide) (by decide)
